import Mathlib

/-!
Shallow embedding of the text-preprocessing and prediction core of
`src/app.py` (Emotion & Sentiment Analyzer).

External collaborators of the core — `emoji.demojize`, the WordNet antonym
lookup (`get_antonym`), the sklearn stop-word set `ENGLISH_STOP_WORDS`, the
TF-IDF vectorizer and the Keras classifier — are frozen black boxes loaded
from artifacts; they are modelled as function parameters.  Strings are
handled at the character-list level.  The letter classes `[a-z]` and `[A-Z]`
of the source's regexes are ASCII; the class `\s` (no `re.ASCII` flag) and
`str.split()` use the full CPython Unicode whitespace set, modelled as such.
Case-folding (`str.lower()`, `str.capitalize()`) is modelled on the ASCII
range, the only range the regex-based claims inspect.  Probability vectors
are modelled over `ℚ` (exact comparison is what the arg-max tie-break claim
is about).
-/

namespace SentimentApp

/-- The regex class `\s` of a Python `str` pattern (no `re.ASCII` flag),
which is also the whitespace set of `str.split()`: the CPython Unicode
whitespace characters U+0009–U+000D, U+001C–U+001F, the space U+0020,
U+0085, U+00A0, U+1680, U+2000–U+200A, U+2028, U+2029, U+202F, U+205F
and U+3000. -/
def isSpaceRe (c : Char) : Bool :=
  (9 ≤ c.toNat && c.toNat ≤ 13) || (28 ≤ c.toNat && c.toNat ≤ 32)
  || c.toNat = 133 || c.toNat = 160 || c.toNat = 5760
  || (8192 ≤ c.toNat && c.toNat ≤ 8202) || c.toNat = 8232 || c.toNat = 8233
  || c.toNat = 8239 || c.toNat = 8287 || c.toNat = 12288

/-- The regex class `[a-z]` (code points 97–122). -/
def isLowerAZ (c : Char) : Bool := 97 ≤ c.toNat && c.toNat ≤ 122

/-- The regex class `[A-Z]` (code points 65–90). -/
def isUpperAZ (c : Char) : Bool := 65 ≤ c.toNat && c.toNat ≤ 90

/-- ASCII case-folding of one character, as done by `str.lower()` on the
ASCII range (the only range the later regex `[^a-z\s]` can keep). -/
def lowerChar (c : Char) : Char :=
  if isUpperAZ c then Char.ofNat (c.toNat + 32) else c

/-- ASCII upper-casing of one character, as done by `str.capitalize()` on
the first character. -/
def upperChar (c : Char) : Char :=
  if isLowerAZ c then Char.ofNat (c.toNat - 32) else c

/-- `text.replace(":", " ")` — the pattern is a single character, so the
replacement is a character map. -/
def replaceColon (s : String) : String :=
  String.mk (s.data.map (fun c => if c = ':' then ' ' else c))

/-- `text.lower()` (ASCII model). -/
def pyLower (s : String) : String := String.mk (s.data.map lowerChar)

/-- `re.sub(r"([a-z])([A-Z])", r"\1 \2", text)`: left-to-right scan; a match
consumes both characters and scanning resumes after them. -/
def camelSubAux : List Char → List Char
  | c1 :: c2 :: rest =>
    if isLowerAZ c1 && isUpperAZ c2 then c1 :: ' ' :: c2 :: camelSubAux rest
    else c1 :: camelSubAux (c2 :: rest)
  | l => l

/-- The camel-case-splitting substitution step of `preprocess_text`. -/
def camelSplit (s : String) : String := String.mk (camelSubAux s.data)

/-- The character class kept by `re.sub(r'[^a-z\s]', '', text)`. -/
def keepChar (c : Char) : Bool := isLowerAZ c || isSpaceRe c

/-- `re.sub(r'[^a-z\s]', '', text)`: delete every character that is not a
lowercase ASCII letter or whitespace. -/
def stripNonAlpha (s : String) : String :=
  String.mk (s.data.filter keepChar)

/-- Lines 60–63 of `app.py`: the character-level normalization phase of
`preprocess_text`, parametrized by the external `emoji.demojize`. -/
def normalize (demojize : String → String) (text : String) : String :=
  stripNonAlpha (camelSplit (pyLower (replaceColon (demojize text))))

/-- Helper for `pySplit`: accumulate the current word (reversed). -/
def splitAux : List Char → List Char → List String
  | [], acc => if acc.isEmpty then [] else [String.mk acc.reverse]
  | c :: cs, acc =>
    if isSpaceRe c then
      if acc.isEmpty then splitAux cs []
      else String.mk acc.reverse :: splitAux cs []
    else splitAux cs (c :: acc)

/-- `text.split()`: split on whitespace runs, discarding empty pieces. -/
def pySplit (s : String) : List String := splitAux s.data []

/-- The `negation_words` set of `app.py` (line 47). -/
def negation_words : List String :=
  ["not", "no", "never", "none", "nothing", "nobody", "neither", "nowhere", "without"]

/-- Lines 74–78 of `app.py`: the transformation applied to the word that
follows a negation trigger.  `antonym` models `get_antonym` (returns `none`
for Python `None`); the guard `a ≠ ""` models Python's truthiness test
`if antonym and ...` (`get_antonym` never returns an empty lemma name, but
the guard is part of the code). -/
def negTransform (antonym : String → Option String) (stop : String → Bool)
    (w : String) : String :=
  match antonym w with
  | some a => if a ≠ "" ∧ stop a = false then a else "neg_" ++ w
  | none => "neg_" ++ w

/-- The word loop of `preprocess_text` (lines 69–83): `stop` models
membership in `ENGLISH_STOP_WORDS`; the `Bool` argument is the `negate`
flag. -/
def tokenizeAux (antonym : String → Option String) (stop : String → Bool) :
    List String → Bool → List String
  | [], _ => []
  | w :: ws, negate =>
    if w ∈ negation_words then tokenizeAux antonym stop ws true
    else if negate then negTransform antonym stop w :: tokenizeAux antonym stop ws false
    else if stop w then tokenizeAux antonym stop ws false
    else w :: tokenizeAux antonym stop ws false

/-- `preprocess_text` (lines 57–84) for string input: normalization, word
split, negation-aware token loop, and `' '.join(...)`. -/
def preprocess_text (demojize : String → String)
    (antonym : String → Option String) (stop : String → Bool)
    (text : String) : String :=
  String.intercalate " " (tokenizeAux antonym stop (pySplit (normalize demojize text)) false)

/-- Fold for `np.argmax`: carries (best index, best value); only a strictly
greater value replaces the current best, so the first maximum wins. -/
def argmaxAuxP : List ℚ → Nat → Nat × ℚ → Nat × ℚ
  | [], _, b => b
  | x :: xs, i, b =>
    if b.2 < x then argmaxAuxP xs (i + 1) (i, x) else argmaxAuxP xs (i + 1) b

/-- `np.argmax` (line 90): index of the first occurrence of the maximum
value of the vector. -/
def npArgmax : List ℚ → Nat
  | [] => 0
  | x :: xs => (argmaxAuxP xs 1 (0, x)).1

/-- The `sentiment_mapping` dict of `app.py` (lines 38–45), as an
association list in source order. -/
def sentiment_mapping : List (String × String) :=
  [("sad", "Negative"), ("fear", "Negative"), ("anger", "Negative"),
   ("love", "Positive"), ("joy", "Positive"), ("surprise", "Neutral")]

/-- Python `dict.get(k, dflt)` on an association list. -/
def pyDictGet (d : List (String × String)) (k dflt : String) : String :=
  match d.find? (fun p => p.1 == k) with
  | some p => p.2
  | none => dflt

/-- Python `str.capitalize()`: first character upper-cased, the rest
lower-cased (ASCII model). -/
def pyCapitalize (s : String) : String :=
  match s.data with
  | [] => ""
  | c :: cs => String.mk (upperChar c :: cs.map lowerChar)

/-- `predict_emotion` (lines 86–93).  `vectorize` models the frozen TF-IDF
vectorizer, `classify` the frozen Keras model's probability output for one
row, `labels` the `label_encoder.classes_` array.  `np.argmax` on an empty
vector and out-of-range label indexing raise in Python; both are modelled
as `none`. -/
def predict_emotion (demojize : String → String)
    (antonym : String → Option String) (stop : String → Bool)
    (vectorize : String → List ℚ) (classify : List ℚ → List ℚ)
    (labels : List String) (text : String) :
    Option (String × String × List ℚ) :=
  let clean := preprocess_text demojize antonym stop text
  let prediction := classify (vectorize clean)
  if prediction = [] then none
  else
    if h : npArgmax prediction < labels.length then
      let emo := labels.get ⟨npArgmax prediction, h⟩
      some (pyCapitalize emo, pyDictGet sentiment_mapping (pyLower emo) "Neutral", prediction)
    else none

/-! ### Helper lemmas -/

theorem mk_data (s : String) : String.mk s.data = s := rfl

theorem toNat_ofNat_valid (n : Nat) (h : n < 55296) : (Char.ofNat n).toNat = n := by
  rw [Char.ofNat, dif_pos (Or.inl h)]
  rfl

theorem lowerChar_not_upper (c : Char) : isUpperAZ (lowerChar c) = false := by
  unfold lowerChar
  by_cases h : isUpperAZ c = true
  · rw [if_pos h]
    unfold isUpperAZ at *
    simp only [Bool.and_eq_true, decide_eq_true_eq] at h
    have hv : (Char.ofNat (c.toNat + 32)).toNat = c.toNat + 32 :=
      toNat_ofNat_valid _ (by omega)
    simp only [Bool.and_eq_false_iff, decide_eq_false_iff_not, hv]
    omega
  · rw [if_neg h]
    simpa using h

theorem lowerChar_fixed (c : Char) (h : isUpperAZ c = false) : lowerChar c = c := by
  unfold lowerChar
  rw [if_neg (by simp [h])]

theorem map_fixed {f : Char → Char} :
    ∀ l : List Char, (∀ c ∈ l, f c = c) → l.map f = l := by
  intro l h
  induction l with
  | nil => rfl
  | cons c cs ih =>
    simp only [List.map_cons, h c (by simp), List.cons.injEq, true_and]
    exact ih (fun x hx => h x (by simp [hx]))

theorem keep_not_upper (c : Char) (h : keepChar c = true) : isUpperAZ c = false := by
  unfold keepChar isLowerAZ isSpaceRe at h
  unfold isUpperAZ
  simp only [Bool.or_eq_true, Bool.and_eq_true, decide_eq_true_eq] at h
  simp only [Bool.and_eq_false_iff, decide_eq_false_iff_not]
  omega

theorem keep_not_colon (c : Char) (h : keepChar c = true) : c ≠ ':' := by
  unfold keepChar isLowerAZ isSpaceRe at h
  simp only [Bool.or_eq_true, Bool.and_eq_true, decide_eq_true_eq] at h
  intro hc
  subst hc
  have hv : (':' : Char).toNat = 58 := rfl
  omega

theorem mem_normalize_keep (demojize : String → String) (s : String) :
    ∀ c ∈ (normalize demojize s).data, keepChar c = true := by
  intro c hc
  unfold normalize stripNonAlpha at hc
  rw [mk_data] at hc
  exact (List.mem_filter.mp hc).2

theorem camelSubAux_fixed :
    ∀ l : List Char, (∀ c ∈ l, isUpperAZ c = false) → camelSubAux l = l := by
  intro l
  induction l with
  | nil => intro _; rfl
  | cons c1 tl ih =>
    intro h
    cases tl with
    | nil => rfl
    | cons c2 rest =>
      have h2 : isUpperAZ c2 = false := h c2 (by simp)
      rw [camelSubAux, if_neg (by simp [h2])]
      rw [ih (fun x hx => h x (by simp [List.mem_cons] at hx ⊢; tauto))]

theorem camelSplit_fixed (s : String) (h : ∀ c ∈ s.data, isUpperAZ c = false) :
    camelSplit s = s := by
  unfold camelSplit
  rw [camelSubAux_fixed s.data h, mk_data]

theorem replaceColon_fixed (s : String) (h : ∀ c ∈ s.data, c ≠ ':') :
    replaceColon s = s := by
  unfold replaceColon
  rw [map_fixed s.data (fun c hc => by rw [if_neg (h c hc)]), mk_data]

theorem pyLower_fixed (s : String) (h : ∀ c ∈ s.data, isUpperAZ c = false) :
    pyLower s = s := by
  unfold pyLower
  rw [map_fixed s.data (fun c hc => lowerChar_fixed c (h c hc)), mk_data]

theorem stripNonAlpha_fixed (s : String) (h : ∀ c ∈ s.data, keepChar c = true) :
    stripNonAlpha s = s := by
  unfold stripNonAlpha
  rw [List.filter_eq_self.mpr h, mk_data]

theorem argmaxAuxP_snd_le (xs : List ℚ) :
    ∀ (i : Nat) (b : Nat × ℚ), b.2 ≤ (argmaxAuxP xs i b).2 := by
  induction xs with
  | nil => intro i b; exact le_refl _
  | cons x xs ih =>
    intro i b
    rw [argmaxAuxP]
    by_cases hx : b.2 < x
    · rw [if_pos hx]
      exact le_of_lt (lt_of_lt_of_le hx (ih (i + 1) (i, x)))
    · rw [if_neg hx]
      exact ih (i + 1) b

theorem argmaxAuxP_mem_le (xs : List ℚ) :
    ∀ (i : Nat) (b : Nat × ℚ), ∀ x ∈ xs, x ≤ (argmaxAuxP xs i b).2 := by
  induction xs with
  | nil => intro i b x hx; exact absurd hx (List.not_mem_nil x)
  | cons y xs ih =>
    intro i b x hx
    rw [argmaxAuxP]
    rcases List.mem_cons.mp hx with rfl | hx2
    · by_cases hy : b.2 < x
      · rw [if_pos hy]
        exact argmaxAuxP_snd_le xs (i + 1) (i, x)
      · rw [if_neg hy]
        exact le_trans (not_lt.mp hy) (argmaxAuxP_snd_le xs (i + 1) b)
    · by_cases hy : b.2 < y
      · rw [if_pos hy]
        exact ih (i + 1) (i, y) x hx2
      · rw [if_neg hy]
        exact ih (i + 1) b x hx2

theorem argmaxAuxP_cases (xs : List ℚ) :
    ∀ (i : Nat) (b : Nat × ℚ),
      argmaxAuxP xs i b = b
      ∨ ∃ j, ∃ hj : j < xs.length,
          (argmaxAuxP xs i b).1 = i + j
          ∧ (argmaxAuxP xs i b).2 = xs.get ⟨j, hj⟩
          ∧ b.2 < (argmaxAuxP xs i b).2
          ∧ ∀ j2, ∀ hj2 : j2 < xs.length, j2 < j →
              xs.get ⟨j2, hj2⟩ < (argmaxAuxP xs i b).2 := by
  induction xs with
  | nil => intro i b; exact Or.inl rfl
  | cons x xs ih =>
    intro i b
    rw [argmaxAuxP]
    by_cases hx : b.2 < x
    · rw [if_pos hx]
      rcases ih (i + 1) (i, x) with heq | ⟨j, hj, h1, h2, h3, h4⟩
      · refine Or.inr ⟨0, by simp, ?_, ?_, ?_, ?_⟩
        · rw [heq]; rfl
        · rw [heq]; rfl
        · rw [heq]; exact hx
        · intro j2 hj2 hlt; omega
      · refine Or.inr ⟨j + 1, by simpa using hj, by omega, by simpa using h2, ?_, ?_⟩
        · exact lt_trans hx h3
        · intro j2 hj2 hlt
          match j2 with
          | 0 => exact h3
          | k + 1 => exact h4 k (by simpa using hj2) (by omega)
    · rw [if_neg hx]
      rcases ih (i + 1) b with heq | ⟨j, hj, h1, h2, h3, h4⟩
      · exact Or.inl heq
      · refine Or.inr ⟨j + 1, by simpa using hj, by omega, by simpa using h2, h3, ?_⟩
        intro j2 hj2 hlt
        match j2 with
        | 0 => exact lt_of_le_of_lt (not_lt.mp hx) h3
        | k + 1 => exact h4 k (by simpa using hj2) (by omega)

/-! ### Claim theorems -/

/-- Claim C2 (counterexample): the claim that every normalization output
contains only characters from `{a-z, ' '}` fails at the concrete input
`"a\tb"` (with the identity demojizer, faithful here since the input has no
emoji): the regex `[^a-z\s]` keeps every whitespace character, so the tab
survives normalization. -/
theorem normalize_charset_cex :
    ¬ (∀ c ∈ (normalize (fun t => t) "a\tb").data, isLowerAZ c = true ∨ c = ' ') := by
  decide

/-- Claim C2 (amended): for every demojizer and every input string, the
output of the normalization phase contains only lowercase ASCII letters and
Python-`\s` whitespace characters (the Unicode whitespace set, e.g. space,
tab, newline, U+00A0); runs of whitespace and non-space whitespace may
survive. -/
theorem normalize_chars_only (demojize : String → String) (s : String) :
    ∀ c ∈ (normalize demojize s).data, isLowerAZ c = true ∨ isSpaceRe c = true := by
  intro c hc
  have h := mem_normalize_keep demojize s c hc
  unfold keepChar at h
  simpa using h

/-- Witness for C2 (amended) at demojize = id, input `"Ab."`, character `'a'`. -/
theorem normalize_chars_only_witness :
    isLowerAZ 'a' = true ∨ isSpaceRe 'a' = true :=
  normalize_chars_only (fun t => t) "Ab." 'a' (by decide)

/-- Claim C5: the camel-case-splitting substitution runs after lower-casing;
the lower-cased text contains no uppercase ASCII letter, so the substitution
leaves every input reaching it unchanged. -/
theorem camel_after_lower_noop (demojize : String → String) (s : String) :
    (∀ c ∈ (pyLower (replaceColon (demojize s))).data, isUpperAZ c = false)
    ∧ camelSplit (pyLower (replaceColon (demojize s))) = pyLower (replaceColon (demojize s)) := by
  have hch : ∀ c ∈ (pyLower (replaceColon (demojize s))).data, isUpperAZ c = false := by
    intro c hc
    unfold pyLower at hc
    rw [mk_data] at hc
    obtain ⟨d, _, rfl⟩ := List.mem_map.mp hc
    exact lowerChar_not_upper d
  exact ⟨hch, camelSplit_fixed _ hch⟩

/-- Witness for C5 at demojize = id, input `"aB"`. -/
theorem camel_after_lower_noop_witness :
    isUpperAZ 'a' = false
    ∧ camelSplit (pyLower (replaceColon ((fun t => t) "aB"))) = pyLower (replaceColon ((fun t => t) "aB")) := by
  have h := camel_after_lower_noop (fun t => t) "aB"
  exact ⟨h.1 'a' (by decide), h.2⟩

/-- Claim C6: the normalization phase is idempotent, given that the external
demojizer fixes strings that contain only `[a-z\s]` characters (true of
`emoji.demojize`: such strings contain no emoji). -/
theorem normalize_idem (demojize : String → String)
    (hd : ∀ t, (∀ c ∈ t.data, keepChar c = true) → demojize t = t) (s : String) :
    normalize demojize (normalize demojize s) = normalize demojize s := by
  have hy : ∀ c ∈ (normalize demojize s).data, keepChar c = true :=
    mem_normalize_keep demojize s
  conv_lhs => rw [normalize]
  rw [hd _ hy]
  rw [replaceColon_fixed _ (fun c hc => keep_not_colon c (hy c hc))]
  rw [pyLower_fixed _ (fun c hc => keep_not_upper c (hy c hc))]
  rw [camelSplit_fixed _ (fun c hc => keep_not_upper c (hy c hc))]
  rw [stripNonAlpha_fixed _ hy]

/-- Witness for C6 at demojize = id, input `"Ab, c:D!"`. -/
theorem normalize_idem_witness :
    normalize (fun t => t) (normalize (fun t => t) "Ab, c:D!") = normalize (fun t => t) "Ab, c:D!" :=
  normalize_idem (fun t => t) (fun _ _ => rfl) "Ab, c:D!"

/-- Claim C1: for a word `w` consumed while the negate flag is true (and not
itself a trigger — triggers are consumed by the trigger branch, see C9), the
tokenizer emits the antonym of `w` when one exists and is not a stop-word,
and the literal word prefixed with `neg_` otherwise; the stop-word filter is
never applied to `w` itself (the statement holds for every `stop`, whose
value at `w` never appears), and the negate flag is reset to false regardless
of the outcome.  The hypothesis `antonym w ≠ some ""` records that the
WordNet resolver never returns an empty lemma name (Python's truthiness test
`if antonym` would treat `""` as absent). -/
theorem tokenize_negated_word (antonym : String → Option String)
    (stop : String → Bool) (w : String) (ws : List String)
    (hw : w ∉ negation_words) (ha : antonym w ≠ some "") :
    tokenizeAux antonym stop (w :: ws) true =
      (match antonym w with
       | some a => if stop a = true then "neg_" ++ w else a
       | none => "neg_" ++ w) :: tokenizeAux antonym stop ws false := by
  rw [tokenizeAux, if_neg hw, if_pos rfl]
  cases h : antonym w with
  | none => simp [negTransform, h]
  | some a =>
    have hne : a ≠ "" := by
      intro he
      exact ha (by rw [h, he])
    cases hsa : stop a <;> simp [negTransform, h, hne, hsa]

/-- Witness for C1: antonym found and not a stop-word (emitted), and antonym
absent (marker emitted). -/
theorem tokenize_negated_word_witness :
    tokenizeAux (fun _ => some "bad") (fun _ => false) ["good"] true = ["bad"]
    ∧ tokenizeAux (fun _ => none) (fun _ => false) ["good"] true = ["neg_good"] := by
  have h1 := tokenize_negated_word (fun _ => some "bad") (fun _ => false) "good" []
    (by decide) (by simp)
  have h2 := tokenize_negated_word (fun _ => none) (fun _ => false) "good" []
    (by decide) (by simp)
  exact ⟨by simpa using h1, by simpa using h2⟩

/-- Claim C3: a negation-trigger word is consumed without emitting anything
and sets the negate flag (whatever its previous value); a trigger as the only
word yields an empty token sequence; and the full preprocessing of the input
`"never"` yields the empty joined string (the demojizer fixes `"never"`,
which contains no emoji). -/
theorem trigger_word_consumed (antonym : String → Option String)
    (stop : String → Bool) (negate : Bool) (ws : List String) (w : String)
    (hw : w ∈ negation_words) (demojize : String → String)
    (hd : demojize "never" = "never") :
    tokenizeAux antonym stop (w :: ws) negate = tokenizeAux antonym stop ws true
    ∧ tokenizeAux antonym stop [w] negate = []
    ∧ preprocess_text demojize antonym stop "never" = "" := by
  refine ⟨by rw [tokenizeAux, if_pos hw], ?_, ?_⟩
  · rw [tokenizeAux, if_pos hw]
    rfl
  · unfold preprocess_text normalize
    rw [hd]
    rfl

/-- Witness for C3 at the trigger `"never"`. -/
theorem trigger_word_consumed_witness :
    tokenizeAux (fun _ => none) (fun _ => false) ["never"] false = []
    ∧ preprocess_text (fun t => t) (fun _ => none) (fun _ => false) "never" = "" := by
  have h := trigger_word_consumed (fun _ => none) (fun _ => false) false [] "never"
    (by decide) (fun t => t) rfl
  exact ⟨h.2.1, h.2.2⟩

/-- Claim C4: with the negate flag false, a non-trigger word is emitted
unchanged when it is not a stop-word and dropped when it is; and emission
preserves the relative order of the source words (a list of non-trigger,
non-stop words tokenizes to itself). -/
theorem plain_word_branch (antonym : String → Option String)
    (stop : String → Bool) (w : String) (ws : List String)
    (hw : w ∉ negation_words) :
    tokenizeAux antonym stop (w :: ws) false
      = (if stop w = true then [] else [w]) ++ tokenizeAux antonym stop ws false
    ∧ ∀ l : List String, (∀ v ∈ l, v ∉ negation_words ∧ stop v = false) →
        tokenizeAux antonym stop l false = l := by
  constructor
  · cases hsw : stop w <;> simp [tokenizeAux, hw, hsw]
  · intro l hl
    induction l with
    | nil => rfl
    | cons v vs ih =>
      obtain ⟨hv1, hv2⟩ := hl v (by simp)
      rw [tokenizeAux, if_neg hv1, if_neg (by simp), if_neg (by simp [hv2])]
      rw [ih (fun x hx => hl x (by simp [hx]))]

/-- Witness for C4: a stop-word is dropped; non-stop words pass unchanged in
order. -/
theorem plain_word_branch_witness :
    tokenizeAux (fun _ => none) (fun w => w == "the") ["the"] false = []
    ∧ tokenizeAux (fun _ => none) (fun w => w == "the") ["good", "movie"] false
        = ["good", "movie"] := by
  have h1 := plain_word_branch (fun _ => none) (fun w => w == "the") "the" [] (by decide)
  have h2 := plain_word_branch (fun _ => none) (fun w => w == "the") "x" [] (by decide)
  exact ⟨by simpa using h1.1, h2.2 ["good", "movie"] (by decide)⟩

/-- Claim C9: the trigger-set membership check takes precedence over the
negated-word branch: a trigger seen while the negate flag is already true is
consumed like any trigger (nothing emitted, no antonym lookup, no `neg_`
marker) and the flag stays true, so consecutive triggers do not cancel;
in particular `"not" :: "never" :: ws` tokenizes exactly like
`"never" :: ws`. -/
theorem trigger_over_negated (antonym : String → Option String)
    (stop : String → Bool) (ws : List String) (w : String)
    (hw : w ∈ negation_words) :
    tokenizeAux antonym stop (w :: ws) true = tokenizeAux antonym stop ws true
    ∧ tokenizeAux antonym stop ("not" :: "never" :: ws) false
        = tokenizeAux antonym stop ("never" :: ws) false := by
  refine ⟨by rw [tokenizeAux, if_pos hw], ?_⟩
  have h1 : ("not" : String) ∈ negation_words := by decide
  have h2 : ("never" : String) ∈ negation_words := by decide
  rw [tokenizeAux, if_pos h1, tokenizeAux, if_pos h2]
  conv_rhs => rw [tokenizeAux, if_pos h2]

/-- Witness for C9 at the trigger `"no"` with tail `["good"]`. -/
theorem trigger_over_negated_witness :
    tokenizeAux (fun _ => none) (fun _ => false) ["no", "good"] true
      = tokenizeAux (fun _ => none) (fun _ => false) ["good"] true
    ∧ tokenizeAux (fun _ => none) (fun _ => false) ["not", "never", "good"] false
      = tokenizeAux (fun _ => none) (fun _ => false) ["never", "good"] false :=
  trigger_over_negated (fun _ => none) (fun _ => false) ["good"] "no" (by decide)

/-- Claim C10: `predict_emotion` is deterministic as a two-run property —
with the same fixed demojizer, antonym database, stop-word set, vectorizer,
classifier and label table, two calls on equal input texts return equal
(emotion, sentiment, probability-vector) results. -/
theorem predict_two_runs (demojize : String → String)
    (antonym : String → Option String) (stop : String → Bool)
    (vectorize : String → List ℚ) (classify : List ℚ → List ℚ)
    (labels : List String) (t1 t2 : String) (h : t1 = t2) :
    predict_emotion demojize antonym stop vectorize classify labels t1
      = predict_emotion demojize antonym stop vectorize classify labels t2 := by
  rw [h]

/-- Witness for C10 on two runs at the input `"ok"`. -/
theorem predict_two_runs_witness :
    predict_emotion (fun t => t) (fun _ => none) (fun _ => false)
        (fun _ => [(1 : ℚ)]) (fun v => v) ["joy"] "ok"
      = predict_emotion (fun t => t) (fun _ => none) (fun _ => false)
        (fun _ => [(1 : ℚ)]) (fun v => v) ["joy"] "ok" :=
  predict_two_runs (fun t => t) (fun _ => none) (fun _ => false)
    (fun _ => [(1 : ℚ)]) (fun v => v) ["joy"] "ok" "ok" rfl

/-- Claim C7: the index selected in `predict_emotion` is the arg-max of the
probability vector with ties broken by lowest index: the selected slot is
maximal, every strictly lower-indexed slot holds a strictly smaller value
(so among exactly-equal maximal slots the lowest index wins), and the
emotion returned by `predict_emotion` is the label at that index. -/
theorem npArgmax_first (l : List ℚ) (hne : l ≠ []) :
    (∃ hk : npArgmax l < l.length,
      (∀ j, ∀ hj : j < l.length, l.get ⟨j, hj⟩ ≤ l.get ⟨npArgmax l, hk⟩)
      ∧ ∀ j, ∀ hj : j < l.length, j < npArgmax l → l.get ⟨j, hj⟩ < l.get ⟨npArgmax l, hk⟩)
    ∧ ∀ (demojize : String → String) (antonym : String → Option String)
        (stop : String → Bool) (vectorize : String → List ℚ)
        (classify : List ℚ → List ℚ) (labels : List String) (text : String)
        (t : String × String × List ℚ),
        predict_emotion demojize antonym stop vectorize classify labels text = some t →
        t.1 = pyCapitalize (labels.getD
          (npArgmax (classify (vectorize (preprocess_text demojize antonym stop text)))) "") := by
  constructor
  · cases l with
    | nil => exact absurd rfl hne
    | cons x xs =>
      have hn : npArgmax (x :: xs) = (argmaxAuxP xs 1 (0, x)).1 := rfl
      rcases argmaxAuxP_cases xs 1 (0, x) with heq | ⟨j, hj, h1, h2, h3, h4⟩
      · have h0 : npArgmax (x :: xs) = 0 := by rw [hn, heq]
        refine ⟨by simp [h0], ?_, ?_⟩
        · intro j hjl
          simp only [h0]
          match j with
          | 0 => exact le_refl _
          | k + 1 =>
            have := argmaxAuxP_mem_le xs 1 (0, x) (xs.get ⟨k, by simpa using hjl⟩)
              (List.get_mem xs _ _)
            rw [heq] at this
            exact this
        · intro j hjl hlt
          rw [h0] at hlt
          omega
      · have h0 : npArgmax (x :: xs) = j + 1 := by rw [hn, h1]; omega
        have hk : npArgmax (x :: xs) < (x :: xs).length := by
          simp only [h0, List.length_cons]
          omega
        refine ⟨hk, ?_, ?_⟩
        · intro j2 hjl
          simp only [h0]
          have hval : (x :: xs).get ⟨j + 1, by simpa using hj⟩
              = (argmaxAuxP xs 1 (0, x)).2 := by
            rw [List.get_cons_succ, ← h2]
          rw [hval]
          match j2 with
          | 0 => exact le_of_lt h3
          | k + 1 =>
            exact argmaxAuxP_mem_le xs 1 (0, x) (xs.get ⟨k, by simpa using hjl⟩)
              (List.get_mem xs _ _)
        · intro j2 hjl hlt
          simp only [h0] at hlt ⊢
          have hval : (x :: xs).get ⟨j + 1, by simpa using hj⟩
              = (argmaxAuxP xs 1 (0, x)).2 := by
            rw [List.get_cons_succ, ← h2]
          rw [hval]
          match j2 with
          | 0 => exact h3
          | k + 1 => exact h4 k (by simpa using hjl) (by omega)
  · intro demojize antonym stop vectorize classify labels text t ht
    unfold predict_emotion at ht
    by_cases hne2 : classify (vectorize (preprocess_text demojize antonym stop text)) = []
    · rw [if_pos hne2] at ht
      exact absurd ht (by simp)
    · rw [if_neg hne2] at ht
      by_cases hlt : npArgmax (classify (vectorize (preprocess_text demojize antonym stop text)))
          < labels.length
      · rw [dif_pos hlt] at ht
        have := (Option.some.injEq _ _).mp ht
        rw [← this]
        rw [List.getD_eq_getElem labels "" hlt]
        rfl
      · rw [dif_neg hlt] at ht
        exact absurd ht (by simp)

/-- Witness for C7 at the tied vector `[1, 1]` (first occurrence selected). -/
theorem npArgmax_first_witness :
    (∃ hk : npArgmax [(1 : ℚ), 1] < [(1 : ℚ), 1].length,
      (∀ j, ∀ hj : j < [(1 : ℚ), 1].length,
        [(1 : ℚ), 1].get ⟨j, hj⟩ ≤ [(1 : ℚ), 1].get ⟨npArgmax [(1 : ℚ), 1], hk⟩)
      ∧ ∀ j, ∀ hj : j < [(1 : ℚ), 1].length, j < npArgmax [(1 : ℚ), 1] →
          [(1 : ℚ), 1].get ⟨j, hj⟩ < [(1 : ℚ), 1].get ⟨npArgmax [(1 : ℚ), 1], hk⟩)
    ∧ ∀ (demojize : String → String) (antonym : String → Option String)
        (stop : String → Bool) (vectorize : String → List ℚ)
        (classify : List ℚ → List ℚ) (labels : List String) (text : String)
        (t : String × String × List ℚ),
        predict_emotion demojize antonym stop vectorize classify labels text = some t →
        t.1 = pyCapitalize (labels.getD
          (npArgmax (classify (vectorize (preprocess_text demojize antonym stop text)))) "") :=
  npArgmax_first [(1 : ℚ), 1] (by simp)

/-- Claim C8: the sentiment is a total deterministic lookup on the
lower-cased predicted label — `"joy"` maps to `"Positive"`, `"anger"` to
`"Negative"`, any key absent from the static table to `"Neutral"` — and the
emotion returned by `predict_emotion` is the capitalized predicted label. -/
theorem sentiment_lookup (demojize : String → String)
    (antonym : String → Option String) (stop : String → Bool)
    (vectorize : String → List ℚ) (classify : List ℚ → List ℚ)
    (labels : List String) (text : String)
    (hne : classify (vectorize (preprocess_text demojize antonym stop text)) ≠ [])
    (hlt : npArgmax (classify (vectorize (preprocess_text demojize antonym stop text)))
        < labels.length) :
    pyDictGet sentiment_mapping "joy" "Neutral" = "Positive"
    ∧ pyDictGet sentiment_mapping "anger" "Neutral" = "Negative"
    ∧ (∀ k, (∀ p ∈ sentiment_mapping, p.1 ≠ k) →
        pyDictGet sentiment_mapping k "Neutral" = "Neutral")
    ∧ predict_emotion demojize antonym stop vectorize classify labels text =
        some (pyCapitalize (labels.get
                ⟨npArgmax (classify (vectorize (preprocess_text demojize antonym stop text))), hlt⟩),
              pyDictGet sentiment_mapping
                (pyLower (labels.get
                  ⟨npArgmax (classify (vectorize (preprocess_text demojize antonym stop text))), hlt⟩))
                "Neutral",
              classify (vectorize (preprocess_text demojize antonym stop text))) := by
  refine ⟨rfl, rfl, ?_, ?_⟩
  · intro k hk
    unfold pyDictGet
    have hfind : sentiment_mapping.find? (fun p => p.1 == k) = none :=
      List.find?_eq_none.mpr (fun p hp => by simpa using hk p hp)
    rw [hfind]
  · unfold predict_emotion
    rw [if_neg hne, dif_pos hlt]

/-- Witness for C8: one label `"joy"`, constant unit probability; the
prediction is `("Joy", "Positive", [1])` and an absent key defaults to
`"Neutral"`. -/
theorem sentiment_lookup_witness :
    pyDictGet sentiment_mapping "joy" "Neutral" = "Positive"
    ∧ pyDictGet sentiment_mapping "calm" "Neutral" = "Neutral"
    ∧ predict_emotion (fun t => t) (fun _ => none) (fun _ => false)
        (fun _ => [(1 : ℚ)]) (fun v => v) ["joy"] "fine" = some ("Joy", "Positive", [(1 : ℚ)]) := by
  have h := sentiment_lookup (fun t => t) (fun _ => none) (fun _ => false)
    (fun _ => [(1 : ℚ)]) (fun v => v) ["joy"] "fine" (by simp) (by simp [npArgmax, argmaxAuxP])
  refine ⟨h.1, h.2.2.1 "calm" (by decide), ?_⟩
  rw [h.2.2.2]
  rfl

end SentimentApp
